import Mathlib

/-!
Shallow embedding, in Lean 4, of the core of `analytics/service.go` from the
`ai-service` repository: the per-path statistics aggregation loops of
`AnalyzeLogs` and `AnalyzePerformance`, the prompt-line renderers, the
markdown-fence stripper `cleanJSONResponse`, the response handling of
`callGeminiAPI`, and the CSV exporter `ConvertToCSV`.

Modelling conventions:
* Go strings are `Str := List Char` (the data of interest is ASCII, so the
  byte/rune distinction does not matter here).
* Go `int`/`int64` values are `Int`; the running duration totals of the
  aggregation loops are `int64` sums inside Go and therefore wrap, which the
  model makes explicit with `wrap64` (two's-complement reduction modulo
  `2^64`).  The `count`/`errors` counters increment by at most one per entry
  and cannot wrap for any slice a Go process can hold, so they stay
  unwrapped.  Go's truncated integer division `/` is `Int.tdiv`.
* Go maps with zero-value reads are total functions with a zero default.
* Fallible operations return `Except`.
-/

namespace Analytics

/-- Strings are modelled as lists of characters. -/
abbrev Str := List Char

/-- The backtick character U+0060, the first argument of the first
`strings.ReplaceAll` call in `cleanJSONResponse`. -/
def backtickChar : Char := Char.ofNat 96

/-- The opening-brace character U+007B searched by `strings.Index`. -/
def braceOpen : Char := Char.ofNat 123

/-- The closing-brace character U+007D searched by `strings.LastIndex`. -/
def braceClose : Char := Char.ofNat 125

/-- Embedding of the Go struct `LogEntry` (`service.go` lines 25-34).
`Duration` is `int64` and `Status` is `int`; both are modelled as `Int`. -/
structure LogEntry where
  timestamp : Str
  level : Str
  message : Str
  path : Str
  method : Str
  duration : Int
  status : Int
  metadata : List (Str × Str)
deriving DecidableEq

/-- Rendering of an integer in decimal, as Go `fmt.Sprintf("%d", ...)`,
`strconv.FormatInt(x, 10)` and `strconv.Itoa` all produce. -/
def intToStr (i : Int) : Str := (toString i).data

/-- Two's-complement wraparound of a Go `int64` arithmetic result: reduce
into `[-2^63, 2^63)`.  The numerals are `2^63` and `2^64`. -/
def wrap64 (n : Int) : Int :=
  (n + 9223372036854775808) % 18446744073709551616 - 9223372036854775808

/-! ## Statistics aggregation: the loop of `AnalyzeLogs` (lines 108-128) -/

/-- The anonymous per-path struct of `AnalyzeLogs` (lines 108-112):
`count int`, `totalTime int64`, `errors int`. -/
structure LogPathStats where
  count : Int
  totalTime : Int
  errors : Int
deriving DecidableEq

/-- Zero value of the `AnalyzeLogs` statistics map: reading a missing key of a
Go map yields the zero value of the element type. -/
def logStatsInit : Str → LogPathStats := fun _ => ⟨0, 0, 0⟩

/-- One iteration of the aggregation loop of `AnalyzeLogs` (lines 114-121):
increment `count`, add the duration to the `int64` total (wrapping on
overflow), and increment `errors` when `Status >= 400`; then store the
struct back under key `log.Path`. -/
def logStep (m : Str → LogPathStats) (log : LogEntry) : Str → LogPathStats :=
  fun p =>
    if p = log.path then
      let stats := m log.path
      { count := stats.count + 1
        totalTime := wrap64 (stats.totalTime + log.duration)
        errors := if 400 ≤ log.status then stats.errors + 1 else stats.errors }
    else m p

/-- The `pathStats` map of `AnalyzeLogs` after the whole loop has run. -/
def logPathStats (logs : List LogEntry) : Str → LogPathStats :=
  logs.foldl logStep logStatsInit

/-! ## Statistics aggregation: the loop of `AnalyzePerformance` (lines 171-198) -/

/-- The anonymous per-path struct of `AnalyzePerformance` (lines 171-177):
`count int`, `totalTime int64`, `maxTime int64`, `minTime int64`,
`errors int`. -/
structure PerfPathStats where
  count : Int
  totalTime : Int
  maxTime : Int
  minTime : Int
  errors : Int
deriving DecidableEq

/-- Zero value of the `AnalyzePerformance` statistics map. -/
def perfStatsInit : Str → PerfPathStats := fun _ => ⟨0, 0, 0, 0, 0⟩

/-- One iteration of the aggregation loop of `AnalyzePerformance`
(lines 179-197): on the first observation of a path (`count == 0`) both
`minTime` and `maxTime` are set to the duration; afterwards each is updated
only when a new extreme is seen; then `count`, the wrapping `int64`
`totalTime` and (for `Status >= 400`) `errors` are bumped and the struct is
stored back. -/
def perfStep (m : Str → PerfPathStats) (log : LogEntry) : Str → PerfPathStats :=
  fun p =>
    if p = log.path then
      let s0 := m log.path
      let s1 :=
        if s0.count = 0 then
          { s0 with minTime := log.duration, maxTime := log.duration }
        else
          let sa := if log.duration < s0.minTime then { s0 with minTime := log.duration } else s0
          if sa.maxTime < log.duration then { sa with maxTime := log.duration } else sa
      { s1 with
        count := s1.count + 1
        totalTime := wrap64 (s1.totalTime + log.duration)
        errors := if 400 ≤ log.status then s1.errors + 1 else s1.errors }
    else m p

/-- The `pathStats` map of `AnalyzePerformance` after the whole loop. -/
def perfPathStats (logs : List LogEntry) : Str → PerfPathStats :=
  logs.foldl perfStep perfStatsInit

/-! ## Response normalizer: `cleanJSONResponse` (lines 85-100) -/

/-- Fuel-indexed worker for `replaceAll`: scan left to right, replacing
non-overlapping occurrences of the pattern by the replacement.  Each step
consumes at least one character, so fuel `s.length` is always enough. -/
def replaceAllGo : Nat → Str → Str → Str → Str
  | _, s, [], _ => s
  | 0, s, _, _ => s
  | fuel + 1, s, o :: ot, new =>
    match s with
    | [] => []
    | c :: rest =>
      if (o :: ot).isPrefixOf (c :: rest) then
        new ++ replaceAllGo fuel ((c :: rest).drop (o :: ot).length) (o :: ot) new
      else
        c :: replaceAllGo fuel rest (o :: ot) new

/-- Embedding of Go `strings.ReplaceAll(s, old, new)` for a non-empty pattern.
(This model returns `s` unchanged on an empty pattern, where Go would insert
the replacement everywhere; every call site in the source uses a non-empty
pattern.) -/
def replaceAll (s old new : Str) : Str := replaceAllGo s.length s old new

/-- Embedding of Go `strings.Index(s, string(c))` for a one-character needle:
the index of the first occurrence, or `none` where Go returns `-1`. -/
def strIndex (s : Str) (c : Char) : Option Nat :=
  match s with
  | [] => none
  | a :: rest => if a = c then some 0 else (strIndex rest c).map (· + 1)

/-- Embedding of Go `strings.LastIndex(s, string(c))` for a one-character
needle: the index of the last occurrence, or `none` where Go returns `-1`. -/
def strLastIndex (s : Str) (c : Char) : Option Nat :=
  match strIndex s.reverse c with
  | some i => some (s.length - 1 - i)
  | none => none

/-- Embedding of `cleanJSONResponse` (lines 85-100): strip every backtick,
then the (now vacuous) fence markers, then slice from the first brace to the
last closing brace when `start >= 0 && end > start`, else return the cleaned
text unchanged. -/
def cleanJSONResponse (response : Str) : Str :=
  let r1 := replaceAll response [backtickChar] []
  let r2 := replaceAll r1 [backtickChar, backtickChar, backtickChar, 'j', 's', 'o', 'n'] []
  let r3 := replaceAll r2 [backtickChar, backtickChar, backtickChar] []
  match strIndex r3 braceOpen, strLastIndex r3 braceClose with
  | some start, some stop =>
    if start < stop then (r3.drop start).take (stop + 1 - start) else r3
  | some _, none => r3
  | none, _ => r3

/-! ## Prompt builder: notable events and statistics lines -/

/-- The condition of line 124: an entry is notable when
`log.Status >= 400 || log.Level == "error" || log.Level == "warning" ||
log.Duration > 1000`. -/
def notable (log : LogEntry) : Bool :=
  decide (400 ≤ log.status) || log.level == "error".data ||
    log.level == "warning".data || decide (1000 < log.duration)

/-- The notable-event line of lines 125-126:
`fmt.Sprintf("- %s [%s] %s (Duration: %dms, Status: %d)\n", log.Timestamp,
log.Level, log.Path, log.Duration, log.Status)`. -/
def notableLine (log : LogEntry) : Str :=
  "- ".data ++ log.timestamp ++ " [".data ++ log.level ++ "] ".data ++ log.path ++
    " (Duration: ".data ++ intToStr log.duration ++ "ms, Status: ".data ++
    intToStr log.status ++ ")\n".data

/-- The part of the `AnalyzeLogs` loop (lines 123-127) that appends notable
events to the summary builder, as a fold over the input in order. -/
def eventsSection (logs : List LogEntry) : Str :=
  logs.foldl (fun acc log => if notable log then acc ++ notableLine log else acc) []

/-- Rounding of the rational `a / b` (with `b > 0`) to the nearest integer,
ties to even: the rounding used by Go `fmt.Sprintf("%.1f", ...)` on an
exactly representable `float64` value. -/
def roundTiesEven (a b : Int) : Int :=
  let q := a.fdiv b
  let r := a - q * b
  if 2 * r < b then q
  else if b < 2 * r then q + 1
  else if q % 2 = 0 then q else q + 1

/-- Rendering of `fmt.Sprintf("%.1f", float64(errors)/float64(count)*100)`
(lines 134-136 and 203-209), modelled on exact rationals: the percentage in
tenths, rounded ties-to-even, printed with exactly one decimal digit.  For
the inputs the claims evaluate (e.g. `errors=1, count=4`) the `float64`
computation is exact, so the rational model agrees with Go. -/
def errorRateStr (errors count : Int) : Str :=
  let t := roundTiesEven (errors * 1000) count
  (if t < 0 then "-".data else []) ++ (toString (t.natAbs / 10)).data ++
    ".".data ++ (toString (t.natAbs % 10)).data

/-- One line of the "Path Statistics" section of `AnalyzeLogs`
(lines 132-137): `fmt.Sprintf("- %s: %d requests, avg time %dms, error rate
%.1f%%\n", ...)` with `avgTime = totalTime / int64(count)` (Go truncated
division). -/
def logStatLine (path : Str) (stats : LogPathStats) : Str :=
  "- ".data ++ path ++ ": ".data ++ intToStr stats.count ++ " requests, avg time ".data ++
    intToStr (stats.totalTime.tdiv stats.count) ++ "ms, error rate ".data ++
    errorRateStr stats.errors stats.count ++ "%\n".data

/-- One per-path block of the performance summary (lines 201-210). -/
def perfStatBlock (path : Str) (stats : PerfPathStats) : Str :=
  "Endpoint: ".data ++ path ++ "\n".data ++
    "- Requests: ".data ++ intToStr stats.count ++ "\n".data ++
    "- Avg Time: ".data ++ intToStr (stats.totalTime.tdiv stats.count) ++ "ms\n".data ++
    "- Min Time: ".data ++ intToStr stats.minTime ++ "ms\n".data ++
    "- Max Time: ".data ++ intToStr stats.maxTime ++ "ms\n".data ++
    "- Error Rate: ".data ++ errorRateStr stats.errors stats.count ++ "%\n\n".data

/-! ## CSV exporter: `ConvertToCSV` (lines 319-351) with Go `encoding/csv`
semantics (default `Comma = ','`, `UseCRLF = false`) -/

/-- Go `unicode.IsSpace` restricted to Latin-1, as used by
`fieldNeedsQuotes` on the first rune of a field. -/
def goIsSpace (c : Char) : Bool :=
  c == ' ' || c == '\t' || c == '\n' || c == '\x0b' || c == '\x0c' || c == '\r' ||
    c == Char.ofNat 133 || c == Char.ofNat 160

/-- Embedding of `encoding/csv` `fieldNeedsQuotes`: quote the literal
field `\.`, any field containing the comma, a double quote, CR or LF, and
any field whose first rune is white space. -/
def fieldNeedsQuotes (field : Str) : Bool :=
  if field = [] then false
  else if field = ['\\', '.'] then true
  else if field.any (fun c => c == ',' || c == '"' || c == '\r' || c == '\n') then true
  else
    match field with
    | [] => false
    | c :: _ => goIsSpace c

/-- Body of a quoted CSV field with `UseCRLF = false`: each double quote is
doubled; CR and LF are written through unchanged. -/
def escapeQuoted (field : Str) : Str :=
  field.flatMap (fun c => if c == '"' then ['"', '"'] else [c])

/-- Rendering of one CSV field by `csv.Writer.Write`. -/
def writeField (field : Str) : Str :=
  if fieldNeedsQuotes field then '"' :: escapeQuoted field ++ ['"'] else field

/-- Rendering of one CSV record: fields joined by the comma delimiter and
terminated by a bare LF (`UseCRLF = false`). -/
def writeRecord (fields : List Str) : Str :=
  List.intercalate [','] (fields.map writeField) ++ ['\n']

/-- The fixed header row of `ConvertToCSV` (line 324); the `metadata` field
has no column. -/
def headerFields : List Str :=
  ["timestamp".data, "level".data, "message".data, "path".data, "method".data,
    "duration".data, "status".data]

/-- One data row of `ConvertToCSV` (lines 331-339): the string fields
verbatim, `Duration` via `strconv.FormatInt(log.Duration, 10)` and `Status`
via `strconv.Itoa(log.Status)`; `metadata` is omitted. -/
def rowFields (log : LogEntry) : List Str :=
  [log.timestamp, log.level, log.message, log.path, log.method,
    intToStr log.duration, intToStr log.status]

/-- A `csv.Writer.Write` into a `bytes.Buffer`-backed writer.  It has the
fallible signature of the Go API, but `bytes.Buffer` writes are documented to
always succeed, so the result is always `ok`. -/
def bufferWriteRecord (buf : Str) (fields : List Str) : Except Str Str :=
  Except.ok (buf ++ writeRecord fields)

/-- The error recorded by `writer.Error()` after `writer.Flush()` on a
`bytes.Buffer`-backed writer: always absent. -/
def csvFlushError : Option Str := none

/-- The row-writing loop of `ConvertToCSV` (lines 330-343). -/
def writeRows : Str → List LogEntry → Except Str Str
  | buf, [] => Except.ok buf
  | buf, log :: rest =>
    match bufferWriteRecord buf (rowFields log) with
    | Except.error e => Except.error ("error writing CSV row: ".data ++ e)
    | Except.ok b => writeRows b rest

/-- Embedding of `ConvertToCSV` (lines 319-351): write the header, then one
row per entry in input order, flush, and return the buffer's bytes. -/
def convertToCSV (logs : List LogEntry) : Except Str Str :=
  match bufferWriteRecord [] headerFields with
  | Except.error e => Except.error ("error writing CSV header: ".data ++ e)
  | Except.ok buf =>
    match writeRows buf logs with
    | Except.error e => Except.error e
    | Except.ok b =>
      match csvFlushError with
      | some e => Except.error ("error flushing CSV writer: ".data ++ e)
      | none => Except.ok b

/-! ## Remote analysis client: the response handling of `callGeminiAPI`
(lines 287-316) -/

/-- A JSON value, the shape `encoding/json` decodes into
`map[string]interface{}` (numbers are irrelevant to the navigated path and
modelled as `Int`). -/
inductive JValue where
  | jnull : JValue
  | jbool : Bool → JValue
  | jnum : Int → JValue
  | jstr : Str → JValue
  | jarr : List JValue → JValue
  | jobj : List (Str × JValue) → JValue

/-- Lookup of a key in a decoded JSON object. -/
def jLookup (fields : List (Str × JValue)) (key : Str) : Option JValue :=
  (fields.find? (fun f => f.1 == key)).map (fun f => f.2)

/-- The failure modes of `callGeminiAPI` after the transport succeeded
(lines 287-316), each carrying the raw body as the Go error strings do.
`typeAssertionFailure` stands for the two unchecked type assertions
`candidates[0].(map[string]interface{})` and
`parts[0].(map[string]interface{})`, on which the Go code panics. -/
inductive GeminiError where
  | apiError : Nat → Str → GeminiError
  | parseError : Str → GeminiError
  | noCandidates : Str → GeminiError
  | invalidFormat : Str → GeminiError
  | noParts : Str → GeminiError
  | invalidText : Str → GeminiError
  | typeAssertionFailure : Str → GeminiError
deriving DecidableEq

/-- The text extraction of lines 291-316, navigating
`candidates[0].content.parts[0].text`.  The argument `parsed` is the result
of `json.Unmarshal(body, &result)` into `map[string]interface{}`: `none`
models any unmarshal failure (including a non-object top level). -/
def extractGeminiText (body : Str) : Option (List (Str × JValue)) → Except GeminiError Str
  | none => Except.error (GeminiError.parseError body)
  | some fields =>
    match jLookup fields "candidates".data with
    | some (JValue.jarr (c0 :: _)) =>
      match c0 with
      | JValue.jobj cf =>
        match jLookup cf "content".data with
        | some (JValue.jobj contentF) =>
          match jLookup contentF "parts".data with
          | some (JValue.jarr (p0 :: _)) =>
            match p0 with
            | JValue.jobj pf =>
              match jLookup pf "text".data with
              | some (JValue.jstr t) => Except.ok t
              | _ => Except.error (GeminiError.invalidText body)
            | _ => Except.error (GeminiError.typeAssertionFailure body)
          | _ => Except.error (GeminiError.noParts body)
        | _ => Except.error (GeminiError.invalidFormat body)
      | _ => Except.error (GeminiError.typeAssertionFailure body)
    | _ => Except.error (GeminiError.noCandidates body)

/-- Response handling of `callGeminiAPI` from line 287 on: any status other
than `http.StatusOK` (200) fails with `API error (status %d): %s` carrying
the status and the raw body verbatim; only a 200 response reaches the text
extraction. -/
def handleGeminiResponse (statusCode : Nat) (body : Str)
    (parsed : Option (List (Str × JValue))) : Except GeminiError Str :=
  if statusCode ≠ 200 then Except.error (GeminiError.apiError statusCode body)
  else extractGeminiText body parsed

/-! ## Specification-level restatements and concrete test inputs -/

/-- Specification-level restatement of the cleaning phase, from the spec's
words: remove every backtick character (after which the fence-marker removals
have nothing left to match). -/
def stripFences (s : Str) : Str := s.filter (fun a => !(a == backtickChar))

/-- Specification-level restatement of the brace-extraction phase: take the
inclusive substring from the first brace to the last closing brace when the
latter comes after the former, and the whole text otherwise. -/
def sliceToBraces (c : Str) : Str :=
  match strIndex c braceOpen, strLastIndex c braceClose with
  | some start, some stop =>
    if start < stop then (c.drop start).take (stop + 1 - start) else c
  | some _, none => c
  | none, _ => c

/-- Concrete log entry used by the witness theorems. -/
def wlog1 : LogEntry :=
  ⟨"2024-04-06T10:00:00Z".data, "info".data, "ok".data, "/a".data, "GET".data, 100, 200, []⟩

/-- Concrete log entry with a negative caller-supplied duration, used by the
witness theorems. -/
def wlog2 : LogEntry :=
  ⟨"2024-04-06T10:00:01Z".data, "error".data, "boom".data, "/a".data, "GET".data, -3, 500, []⟩

/-- Sum of the absolute durations grouped under `p`.  Keeping it at most
`2^63 - 1` bounds every partial `int64` total away from overflow, so no
wraparound can occur while aggregating the path. -/
def durAbsSum (logs : List LogEntry) (p : Str) : Int :=
  ((logs.filter (fun l => decide (l.path = p))).map (fun l => |l.duration|)).sum

/-- Concrete log entry whose duration is `2^62`: a legal `int64` value whose
double overflows `int64`. -/
def wbig : LogEntry :=
  ⟨"2024-04-06T10:00:02Z".data, "info".data, "big".data, "/a".data, "GET".data,
    4611686018427387904, 200, []⟩

/-! ## Helper lemmas about Go truncated division (`Int.tdiv`) -/

/-- Truncated division bounded above by any `b` with `a ≤ b * c`. -/
lemma tdiv_le_of_le_mul {a b c : Int} (hc : 0 < c) (h : a ≤ b * c) : a.tdiv c ≤ b := by
  rcases le_or_lt 0 a with ha | ha
  · rw [Int.tdiv_eq_ediv ha hc.le]
    calc a / c ≤ b * c / c := Int.ediv_le_ediv hc h
      _ = b := Int.mul_ediv_cancel b hc.ne'
  · have hneg : a.tdiv c = -((-a).tdiv c) := by rw [Int.neg_tdiv]; ring
    rw [hneg, Int.tdiv_eq_ediv (by omega) hc.le]
    have h2 : -b * c ≤ -a := by nlinarith
    have h3 : -b * c / c ≤ -a / c := Int.ediv_le_ediv hc h2
    rw [Int.mul_ediv_cancel _ hc.ne'] at h3
    omega

/-- Truncated division bounded below by any `b` with `b * c ≤ a`. -/
lemma le_tdiv_of_mul_le {a b c : Int} (hc : 0 < c) (h : b * c ≤ a) : b ≤ a.tdiv c := by
  rcases le_or_lt 0 a with ha | ha
  · rw [Int.tdiv_eq_ediv ha hc.le]
    calc b = b * c / c := (Int.mul_ediv_cancel b hc.ne').symm
      _ ≤ a / c := Int.ediv_le_ediv hc h
  · have hneg : a.tdiv c = -((-a).tdiv c) := by rw [Int.neg_tdiv]; ring
    rw [hneg, Int.tdiv_eq_ediv (by omega) hc.le]
    have h2 : -a ≤ -b * c := by nlinarith
    have h3 : -a / c ≤ -b * c / c := Int.ediv_le_ediv hc h2
    rw [Int.mul_ediv_cancel _ hc.ne'] at h3
    omega

/-! ## Helper lemmas about the aggregation loops -/

/-- Effect of one `AnalyzeLogs` loop iteration on the `count` field. -/
lemma logStep_count (m : Str → LogPathStats) (log : LogEntry) (p : Str) :
    (logStep m log p).count =
      if p = log.path then (m log.path).count + 1 else (m p).count := by
  by_cases hp : p = log.path <;> simp [logStep, hp]

/-- Effect of one `AnalyzePerformance` loop iteration on the `count` field. -/
lemma perfStep_count (m : Str → PerfPathStats) (log : LogEntry) (p : Str) :
    (perfStep m log p).count =
      if p = log.path then (m log.path).count + 1 else (m p).count := by
  by_cases hp : p = log.path <;> simp only [perfStep, hp, if_pos, if_neg, not_false_iff] <;>
    split <;> (try split) <;> (try split) <;> simp

/-- The `count` field of the `AnalyzeLogs` statistics map counts the entries
whose path is the key. -/
lemma logPathStats_count_aux :
    ∀ (logs : List LogEntry) (m : Str → LogPathStats) (p : Str),
      (List.foldl logStep m logs p).count =
        (m p).count + (List.count p (logs.map (fun l => l.path)) : Int) := by
  intro logs
  induction logs with
  | nil => intro m p; simp
  | cons l rest ih =>
    intro m p
    rw [List.foldl_cons, ih (logStep m l) p, logStep_count]
    by_cases hp : p = l.path <;>
      simp [hp, List.count_cons] <;> ring

/-- Specialization to the real initial map. -/
lemma logPathStats_count (logs : List LogEntry) (p : Str) :
    (logPathStats logs p).count = (List.count p (logs.map (fun l => l.path)) : Int) := by
  have := logPathStats_count_aux logs logStatsInit p
  simpa [logPathStats, logStatsInit] using this

/-- The `count` field of the `AnalyzePerformance` statistics map counts the
entries whose path is the key. -/
lemma perfPathStats_count_aux :
    ∀ (logs : List LogEntry) (m : Str → PerfPathStats) (p : Str),
      (List.foldl perfStep m logs p).count =
        (m p).count + (List.count p (logs.map (fun l => l.path)) : Int) := by
  intro logs
  induction logs with
  | nil => intro m p; simp
  | cons l rest ih =>
    intro m p
    rw [List.foldl_cons, ih (perfStep m l) p, perfStep_count]
    by_cases hp : p = l.path <;>
      simp [hp, List.count_cons] <;> ring

/-- Specialization to the real initial map. -/
lemma perfPathStats_count (logs : List LogEntry) (p : Str) :
    (perfPathStats logs p).count = (List.count p (logs.map (fun l => l.path)) : Int) := by
  have := perfPathStats_count_aux logs perfStatsInit p
  simpa [perfPathStats, perfStatsInit] using this

/-- One `AnalyzePerformance` iteration leaves every other key unchanged. -/
lemma perfStep_other (m : Str → PerfPathStats) (log : LogEntry) (p : Str)
    (hp : p ≠ log.path) : perfStep m log p = m p := by
  simp [perfStep, hp]

/-- Closed form of one `AnalyzePerformance` iteration at the key written. -/
lemma perfStep_shape (m : Str → PerfPathStats) (log : LogEntry) :
    perfStep m log log.path =
      { count := (m log.path).count + 1
        totalTime := wrap64 ((m log.path).totalTime + log.duration)
        maxTime := if (m log.path).count = 0 then log.duration
          else if (m log.path).maxTime < log.duration then log.duration
          else (m log.path).maxTime
        minTime := if (m log.path).count = 0 then log.duration
          else if log.duration < (m log.path).minTime then log.duration
          else (m log.path).minTime
        errors := if 400 ≤ log.status then (m log.path).errors + 1
          else (m log.path).errors } := by
  by_cases h0 : (m log.path).count = 0
  · simp [perfStep, h0]
  · by_cases h1 : log.duration < (m log.path).minTime <;>
      by_cases h2 : (m log.path).maxTime < log.duration <;>
      simp [perfStep, h0, h1, h2]

/-- Joint invariant of the `AnalyzePerformance` aggregation: a zero count
means the zero struct, and a nonzero count bounds `errors` by `count` and
every processed duration for the key by `minTime` and `maxTime` (which use
only comparisons and assignments, no wrappable arithmetic). -/
lemma perfPathStats_inv (logs : List LogEntry) (p : Str) :
    ((perfPathStats logs p).count = 0 → perfPathStats logs p = ⟨0, 0, 0, 0, 0⟩) ∧
    ((perfPathStats logs p).count ≠ 0 →
      0 ≤ (perfPathStats logs p).errors ∧
      (perfPathStats logs p).errors ≤ (perfPathStats logs p).count ∧
      (perfPathStats logs p).minTime ≤ (perfPathStats logs p).maxTime ∧
      ∀ l ∈ logs, l.path = p →
        (perfPathStats logs p).minTime ≤ l.duration ∧
          l.duration ≤ (perfPathStats logs p).maxTime) := by
  induction logs using List.reverseRecOn with
  | nil => simp [perfPathStats, perfStatsInit]
  | append_singleton rest l ih =>
    have hstep : perfPathStats (rest ++ [l]) = perfStep (perfPathStats rest) l := by
      simp [perfPathStats, List.foldl_append]
    by_cases hp : p = l.path
    · subst hp
      have hcnt : (perfPathStats rest l.path).count =
          (List.count l.path (rest.map (fun x => x.path)) : Int) :=
        perfPathStats_count rest l.path
      have hcnt0 : (0 : Int) ≤ (perfPathStats rest l.path).count := by
        rw [hcnt]; exact Int.natCast_nonneg _
      rw [hstep, perfStep_shape]
      by_cases h0 : (perfPathStats rest l.path).count = 0
      · have hz : perfPathStats rest l.path = ⟨0, 0, 0, 0, 0⟩ := ih.1 h0
        have hnone : ∀ x ∈ rest, x.path ≠ l.path := by
          intro x hx hxp
          have hmem : l.path ∈ rest.map (fun y => y.path) :=
            List.mem_map.mpr ⟨x, hx, hxp⟩
          have hcz : List.count l.path (rest.map (fun y => y.path)) = 0 := by
            have := h0
            rw [hcnt] at this
            exact_mod_cast this
          exact (List.count_eq_zero.mp hcz) hmem
        constructor
        · intro hcontr
          exfalso
          have h5 : (perfPathStats rest l.path).count + 1 = 0 := hcontr
          omega
        · intro _
          simp only [hz, if_pos rfl]
          refine ⟨by split <;> omega, by split <;> omega, le_refl _, ?_⟩
          intro x hx hxp
          rcases List.mem_append.mp hx with hxr | hxl
          · exact absurd hxp (hnone x hxr)
          · have : x = l := List.mem_singleton.mp hxl
            subst this
            exact ⟨le_refl _, le_refl _⟩
      · obtain ⟨he0, hec, hmm, hall⟩ := ih.2 h0
        have hpos : 0 < (perfPathStats rest l.path).count := lt_of_le_of_ne hcnt0 (Ne.symm h0)
        simp only [if_neg h0]
        set s := perfPathStats rest l.path with hsdef
        set d := l.duration with hddef
        have hmn1 : (if d < s.minTime then d else s.minTime) ≤ s.minTime := by split <;> omega
        have hmn2 : (if d < s.minTime then d else s.minTime) ≤ d := by split <;> omega
        have hmx1 : s.maxTime ≤ (if s.maxTime < d then d else s.maxTime) := by split <;> omega
        have hmx2 : d ≤ (if s.maxTime < d then d else s.maxTime) := by split <;> omega
        constructor
        · intro hcontr
          exfalso
          have h5 : s.count + 1 = 0 := hcontr
          omega
        · intro _
          refine ⟨by split <;> omega, by split <;> omega, by omega, ?_⟩
          intro x hx hxp
          rcases List.mem_append.mp hx with hxr | hxl
          · obtain ⟨hl, hr⟩ := hall x hxr hxp
            exact ⟨by omega, by omega⟩
          · have : x = l := List.mem_singleton.mp hxl
            subst this
            exact ⟨hmn2, hmx2⟩
    · rw [hstep, perfStep_other _ _ _ hp]
      refine ⟨ih.1, ?_⟩
      intro h0
      obtain ⟨he0, hec, hmm, hall⟩ := ih.2 h0
      refine ⟨he0, hec, hmm, ?_⟩
      intro x hx hxp
      rcases List.mem_append.mp hx with hxr | hxl
      · exact hall x hxr hxp
      · exfalso
        have : x = l := List.mem_singleton.mp hxl
        subst this
        exact hp (hxp.symm)

/-- In-range values are fixed points of the `int64` wraparound. -/
lemma wrap64_eq_self {n : Int} (h1 : -9223372036854775808 ≤ n)
    (h2 : n < 9223372036854775808) : wrap64 n = n := by
  unfold wrap64
  omega

/-- Appending one entry adds its absolute duration to its own path's sum and
leaves every other path's sum unchanged. -/
lemma durAbsSum_append (rest : List LogEntry) (l : LogEntry) (p : Str) :
    durAbsSum (rest ++ [l]) p =
      durAbsSum rest p + (if l.path = p then |l.duration| else 0) := by
  by_cases hp : l.path = p <;>
    simp [durAbsSum, List.filter_append, hp]

/-- When the absolute durations of a path sum below `2^63`, no partial
`int64` total wraps: the accumulated total stays bounded by that sum in
absolute value and, for a present path, lies between `minTime * count` and
`maxTime * count`. -/
lemma perfPathStats_total (logs : List LogEntry) (p : Str)
    (hof : durAbsSum logs p ≤ 9223372036854775807) :
    |(perfPathStats logs p).totalTime| ≤ durAbsSum logs p ∧
    ((perfPathStats logs p).count ≠ 0 →
      (perfPathStats logs p).minTime * (perfPathStats logs p).count ≤
        (perfPathStats logs p).totalTime ∧
      (perfPathStats logs p).totalTime ≤
        (perfPathStats logs p).maxTime * (perfPathStats logs p).count) := by
  induction logs using List.reverseRecOn with
  | nil =>
    constructor
    · simp [perfPathStats, perfStatsInit, durAbsSum]
    · intro h0
      exact absurd rfl h0
  | append_singleton rest l ih =>
    have hstep : perfPathStats (rest ++ [l]) = perfStep (perfPathStats rest) l := by
      simp [perfPathStats, List.foldl_append]
    by_cases hp : p = l.path
    · subst hp
      have habs2 : durAbsSum (rest ++ [l]) l.path =
          durAbsSum rest l.path + |l.duration| := by
        rw [durAbsSum_append, if_pos rfl]
      have hdn : (0 : Int) ≤ |l.duration| := abs_nonneg _
      rw [habs2] at hof ⊢
      have habsrest : durAbsSum rest l.path ≤ 9223372036854775807 := by omega
      obtain ⟨ihabs, ihbounds⟩ := ih habsrest
      have hcnt0 : (0 : Int) ≤ (perfPathStats rest l.path).count := by
        rw [perfPathStats_count]
        exact Int.natCast_nonneg _
      have hx : |(perfPathStats rest l.path).totalTime + l.duration| ≤
          9223372036854775807 := by
        have h1 := abs_add (perfPathStats rest l.path).totalTime l.duration
        omega
      have hxr := abs_le.mp hx
      have hwrap : wrap64 ((perfPathStats rest l.path).totalTime + l.duration) =
          (perfPathStats rest l.path).totalTime + l.duration :=
        wrap64_eq_self (by omega) (by omega)
      have hCC : (perfPathStats (rest ++ [l]) l.path).count =
          (perfPathStats rest l.path).count + 1 := by
        rw [hstep, perfStep_shape]
      have hTT : (perfPathStats (rest ++ [l]) l.path).totalTime =
          (perfPathStats rest l.path).totalTime + l.duration := by
        rw [hstep, perfStep_shape]
        exact hwrap
      have hMN : (perfPathStats (rest ++ [l]) l.path).minTime =
          (if (perfPathStats rest l.path).count = 0 then l.duration
            else if l.duration < (perfPathStats rest l.path).minTime then l.duration
            else (perfPathStats rest l.path).minTime) := by
        rw [hstep, perfStep_shape]
      have hMX : (perfPathStats (rest ++ [l]) l.path).maxTime =
          (if (perfPathStats rest l.path).count = 0 then l.duration
            else if (perfPathStats rest l.path).maxTime < l.duration then l.duration
            else (perfPathStats rest l.path).maxTime) := by
        rw [hstep, perfStep_shape]
      constructor
      · rw [hTT]
        have h1 := abs_add (perfPathStats rest l.path).totalTime l.duration
        omega
      · intro _
        rw [hTT, hCC, hMN, hMX]
        by_cases h0 : (perfPathStats rest l.path).count = 0
        · have hz : perfPathStats rest l.path = ⟨0, 0, 0, 0, 0⟩ :=
            (perfPathStats_inv rest l.path).1 h0
          rw [hz]
          simp
        · obtain ⟨hb1, hb2⟩ := ihbounds h0
          simp only [if_neg h0]
          have hmn1 : (if l.duration < (perfPathStats rest l.path).minTime
              then l.duration else (perfPathStats rest l.path).minTime) ≤
                (perfPathStats rest l.path).minTime := by
            split <;> omega
          have hmn2 : (if l.duration < (perfPathStats rest l.path).minTime
              then l.duration else (perfPathStats rest l.path).minTime) ≤
                l.duration := by
            split <;> omega
          have hmx1 : (perfPathStats rest l.path).maxTime ≤
              (if (perfPathStats rest l.path).maxTime < l.duration
                then l.duration else (perfPathStats rest l.path).maxTime) := by
            split <;> omega
          have hmx2 : l.duration ≤
              (if (perfPathStats rest l.path).maxTime < l.duration
                then l.duration else (perfPathStats rest l.path).maxTime) := by
            split <;> omega
          constructor
          · have h1 : (if l.duration < (perfPathStats rest l.path).minTime
                then l.duration else (perfPathStats rest l.path).minTime) *
                  (perfPathStats rest l.path).count ≤
                (perfPathStats rest l.path).minTime *
                  (perfPathStats rest l.path).count :=
              mul_le_mul_of_nonneg_right hmn1 hcnt0
            have h2 : (if l.duration < (perfPathStats rest l.path).minTime
                then l.duration else (perfPathStats rest l.path).minTime) *
                  ((perfPathStats rest l.path).count + 1) =
                (if l.duration < (perfPathStats rest l.path).minTime
                  then l.duration else (perfPathStats rest l.path).minTime) *
                    (perfPathStats rest l.path).count +
                  (if l.duration < (perfPathStats rest l.path).minTime
                    then l.duration else (perfPathStats rest l.path).minTime) := by
              ring
            rw [h2]
            omega
          · have h1 : (perfPathStats rest l.path).maxTime *
                  (perfPathStats rest l.path).count ≤
                (if (perfPathStats rest l.path).maxTime < l.duration
                  then l.duration else (perfPathStats rest l.path).maxTime) *
                    (perfPathStats rest l.path).count :=
              mul_le_mul_of_nonneg_right hmx1 hcnt0
            have h2 : (if (perfPathStats rest l.path).maxTime < l.duration
                then l.duration else (perfPathStats rest l.path).maxTime) *
                  ((perfPathStats rest l.path).count + 1) =
                (if (perfPathStats rest l.path).maxTime < l.duration
                  then l.duration else (perfPathStats rest l.path).maxTime) *
                    (perfPathStats rest l.path).count +
                  (if (perfPathStats rest l.path).maxTime < l.duration
                    then l.duration else (perfPathStats rest l.path).maxTime) := by
              ring
            rw [h2]
            omega
    · have heq : perfPathStats (rest ++ [l]) p = perfPathStats rest p := by
        rw [hstep, perfStep_other _ _ _ hp]
      have habs3 : durAbsSum (rest ++ [l]) p = durAbsSum rest p := by
        rw [durAbsSum_append, if_neg (fun h => hp h.symm), add_zero]
      rw [heq, habs3]
      rw [habs3] at hof
      exact ih hof

/-! ## Helper lemmas about the response normalizer -/

/-- Replacing a one-character pattern by the empty string filters that
character out. -/
lemma replaceAllGo_single :
    ∀ (fuel : Nat) (s : Str) (c : Char), s.length ≤ fuel →
      replaceAllGo fuel s [c] [] = s.filter (fun a => !(a == c)) := by
  intro fuel
  induction fuel with
  | zero =>
    intro s c h
    have : s = [] := List.eq_nil_of_length_eq_zero (Nat.le_zero.mp h)
    subst this
    simp [replaceAllGo]
  | succ n ih =>
    intro s c h
    cases s with
    | nil => simp [replaceAllGo]
    | cons a rest =>
      by_cases hca : a = c
      · subst hca
        have hpre : ([a] : Str).isPrefixOf (a :: rest) = true := by
          simp [List.isPrefixOf]
        simp only [replaceAllGo, hpre, if_pos]
        have hlen : rest.length ≤ n := by
          simpa using h
        rw [List.nil_append]
        have hdrop : (a :: rest).drop ([a] : Str).length = rest := by simp
        rw [hdrop, ih rest a hlen]
        simp
      · have hpre : ([c] : Str).isPrefixOf (a :: rest) = false := by
          simp [List.isPrefixOf]
          exact fun hc => absurd hc.symm hca
        simp only [replaceAllGo, hpre, if_neg, Bool.false_eq_true, not_false_iff]
        have hlen : rest.length ≤ n := by simpa using h
        rw [ih rest c hlen]
        simp [hca]

/-- A pattern whose first character does not occur in the text never matches,
so replacement is the identity. -/
lemma replaceAllGo_not_mem :
    ∀ (fuel : Nat) (s : Str) (o : Char) (ot new : Str), o ∉ s →
      replaceAllGo fuel s (o :: ot) new = s := by
  intro fuel
  induction fuel with
  | zero => intro s o ot new _; cases s <;> simp [replaceAllGo]
  | succ n ih =>
    intro s o ot new h
    cases s with
    | nil => simp [replaceAllGo]
    | cons a rest =>
      have hne : ¬(o = a) := fun he => h (he ▸ List.mem_cons_self a rest)
      have hpre : ((o :: ot) : Str).isPrefixOf (a :: rest) = false := by
        simp [List.isPrefixOf]
        intro hc
        exact absurd hc hne
      simp only [replaceAllGo, hpre, Bool.false_eq_true, if_neg, not_false_iff]
      rw [ih rest o ot new (fun hm => h (List.mem_cons_of_mem _ hm))]

/-- Version of `replaceAllGo_single` for the wrapper. -/
lemma replaceAll_single (s : Str) (c : Char) :
    replaceAll s [c] [] = s.filter (fun a => !(a == c)) :=
  replaceAllGo_single s.length s c (le_refl _)

/-- Version of `replaceAllGo_not_mem` for the wrapper. -/
lemma replaceAll_not_mem (s : Str) (o : Char) (ot new : Str) (h : o ∉ s) :
    replaceAll s (o :: ot) new = s :=
  replaceAllGo_not_mem s.length s o ot new h

/-- Removing the one-character backtick pattern is exactly `stripFences`. -/
lemma replaceAll_backtick (s : Str) :
    replaceAll s [backtickChar] [] = stripFences s :=
  replaceAll_single s backtickChar

/-- There is no backtick left after `stripFences`. -/
lemma backtick_not_mem_stripFences (s : Str) : backtickChar ∉ stripFences s := by
  intro hm
  have := List.of_mem_filter hm
  simp at this

/-- The three `ReplaceAll` calls of `cleanJSONResponse` amount to
`stripFences`, and the brace scan is `sliceToBraces`. -/
lemma clean_eq (s : Str) : cleanJSONResponse s = sliceToBraces (stripFences s) := by
  have h0 : cleanJSONResponse s =
      sliceToBraces (replaceAll (replaceAll (replaceAll s [backtickChar] [])
        [backtickChar, backtickChar, backtickChar, 'j', 's', 'o', 'n'] [])
        [backtickChar, backtickChar, backtickChar] []) := rfl
  rw [h0, replaceAll_backtick,
    replaceAll_not_mem _ _ _ _ (backtick_not_mem_stripFences s),
    replaceAll_not_mem _ _ _ _ (backtick_not_mem_stripFences s)]

/-- A successful `strIndex` points at an occurrence of the character. -/
lemma strIndex_some :
    ∀ {s : Str} {c : Char} {i : Nat}, strIndex s c = some i →
      ∃ hlt : i < s.length, s.get ⟨i, hlt⟩ = c := by
  intro s
  induction s with
  | nil => intro c i h; simp [strIndex] at h
  | cons a rest ih =>
    intro c i h
    by_cases hac : a = c
    · have : i = 0 := by simp [strIndex, hac] at h; omega
      subst this
      exact ⟨Nat.succ_pos _, hac⟩
    · simp only [strIndex, if_neg hac, Option.map_eq_some'] at h
      obtain ⟨j, hj, hji⟩ := h
      obtain ⟨hlt, hget⟩ := ih hj
      subst hji
      exact ⟨Nat.succ_lt_succ hlt, hget⟩

/-- A list starting with the character has `strIndex` zero. -/
lemma strIndex_zero {s : Str} {c : Char} (h0 : 0 < s.length)
    (hc : s.get ⟨0, h0⟩ = c) : strIndex s c = some 0 := by
  cases s with
  | nil => simp at h0
  | cons a rest =>
    have : a = c := hc
    simp [strIndex, this]

/-- A successful `strLastIndex` points at an occurrence of the character. -/
lemma strLastIndex_some {s : Str} {c : Char} {i : Nat}
    (h : strLastIndex s c = some i) :
    ∃ hlt : i < s.length, s.get ⟨i, hlt⟩ = c := by
  unfold strLastIndex at h
  rcases hrev : strIndex s.reverse c with _ | j
  · rw [hrev] at h; simp at h
  · rw [hrev] at h
    obtain ⟨hlt, hget⟩ := strIndex_some hrev
    rw [List.length_reverse] at hlt
    have hj : s.length - 1 - j < s.length := by omega
    have heq : i = s.length - 1 - j := by simpa using h.symm
    subst heq
    refine ⟨hj, ?_⟩
    have := List.getElem_reverse (l := s) (i := j) (by simpa using hlt)
    simp only [List.get_eq_getElem] at hget ⊢
    rw [← this]
    exact hget

/-- A list ending with the character has `strLastIndex` at its last
position. -/
lemma strLastIndex_last {s : Str} {c : Char} (h0 : 0 < s.length)
    (hc : s.get ⟨s.length - 1, by omega⟩ = c) :
    strLastIndex s c = some (s.length - 1) := by
  have hrl : 0 < s.reverse.length := by simpa using h0
  have hget : s.reverse.get ⟨0, hrl⟩ = c := by
    simp only [List.get_eq_getElem, List.getElem_reverse]
    simpa using hc
  have : strIndex s.reverse c = some 0 := strIndex_zero hrl hget
  unfold strLastIndex
  rw [this]
  simp

/-- Computation rule for `sliceToBraces` when both indexes exist. -/
lemma sliceToBraces_eq_of_some {c : Str} {start stop : Nat}
    (hI : strIndex c braceOpen = some start)
    (hL : strLastIndex c braceClose = some stop) :
    sliceToBraces c =
      if start < stop then (c.drop start).take (stop + 1 - start) else c := by
  unfold sliceToBraces
  rw [hI, hL]

/-- Computation rule for `sliceToBraces` when there is no opening brace. -/
lemma sliceToBraces_eq_of_open_none {c : Str}
    (hI : strIndex c braceOpen = none) : sliceToBraces c = c := by
  unfold sliceToBraces
  rw [hI]

/-- Computation rule for `sliceToBraces` when there is no closing brace. -/
lemma sliceToBraces_eq_of_close_none {c : Str}
    (hL : strLastIndex c braceClose = none) : sliceToBraces c = c := by
  unfold sliceToBraces
  rcases hI : strIndex c braceOpen with _ | start <;> rw [hL]

/-- Case analysis on `sliceToBraces`: the result is the input unchanged, or a
slice running from an opening brace to a later closing brace. -/
lemma sliceToBraces_spec (c : Str) :
    sliceToBraces c = c ∨
    ∃ (start stop : Nat) (h1 : start < stop) (h2 : stop < c.length),
      c.get ⟨start, by omega⟩ = braceOpen ∧ c.get ⟨stop, h2⟩ = braceClose ∧
      sliceToBraces c = (c.drop start).take (stop + 1 - start) := by
  rcases hI : strIndex c braceOpen with _ | start
  · exact Or.inl (sliceToBraces_eq_of_open_none hI)
  · rcases hL : strLastIndex c braceClose with _ | stop
    · exact Or.inl (sliceToBraces_eq_of_close_none hL)
    · by_cases hlt : start < stop
      · obtain ⟨hso, hgo⟩ := strIndex_some hI
        obtain ⟨hsc, hgc⟩ := strLastIndex_some hL
        right
        refine ⟨start, stop, hlt, hsc, hgo, hgc, ?_⟩
        rw [sliceToBraces_eq_of_some hI hL, if_pos hlt]
      · left
        rw [sliceToBraces_eq_of_some hI hL, if_neg hlt]

/-- Every character of the slice occurs in the input. -/
lemma sliceToBraces_subset (c : Str) : ∀ a ∈ sliceToBraces c, a ∈ c := by
  intro a ha
  rcases sliceToBraces_spec c with hc | ⟨start, stop, h1, h2, _, _, heq⟩
  · rwa [hc] at ha
  · rw [heq] at ha
    exact List.mem_of_mem_drop (List.mem_of_mem_take ha)

/-- The brace extraction is idempotent: a sliced result starts with the
opening brace and ends with the closing brace, so slicing it again returns
it whole. -/
lemma sliceToBraces_idem (c : Str) :
    sliceToBraces (sliceToBraces c) = sliceToBraces c := by
  rcases sliceToBraces_spec c with hc | ⟨start, stop, h1, h2, hop, hcl, heq⟩
  · rw [hc, hc]
  · rw [heq]
    have hlen : ((c.drop start).take (stop + 1 - start)).length = stop + 1 - start := by
      rw [List.length_take, List.length_drop]; omega
    have h0 : 0 < ((c.drop start).take (stop + 1 - start)).length := by omega
    have hr0 : ((c.drop start).take (stop + 1 - start)).get ⟨0, h0⟩ = braceOpen := by
      simp only [List.get_eq_getElem, List.getElem_take, List.getElem_drop]
      simpa using hop
    have hrlast : ((c.drop start).take (stop + 1 - start)).get
        ⟨((c.drop start).take (stop + 1 - start)).length - 1, by omega⟩ = braceClose := by
      have harith : start + (stop + 1 - start - 1) = stop := by omega
      simp only [List.get_eq_getElem, List.getElem_take, List.getElem_drop, hlen, harith]
      simpa using hcl
    have hI2 : strIndex ((c.drop start).take (stop + 1 - start)) braceOpen = some 0 :=
      strIndex_zero h0 hr0
    have hL2 : strLastIndex ((c.drop start).take (stop + 1 - start)) braceClose =
        some (((c.drop start).take (stop + 1 - start)).length - 1) :=
      strLastIndex_last h0 hrlast
    rw [sliceToBraces_eq_of_some hI2 hL2, if_pos (by omega), List.drop_zero]
    have harith2 : ((c.drop start).take (stop + 1 - start)).length - 1 + 1 - 0 =
        ((c.drop start).take (stop + 1 - start)).length := by omega
    rw [harith2, List.take_length]

/-! ## Helper lemmas about the prompt builder and the CSV exporter -/

/-- The notable-events fold appends exactly the rendered lines of the
filtered entries, in input order. -/
lemma eventsSection_aux :
    ∀ (logs : List LogEntry) (acc : Str),
      logs.foldl (fun a log => if notable log then a ++ notableLine log else a) acc =
        acc ++ ((logs.filter notable).map notableLine).flatten := by
  intro logs
  induction logs with
  | nil => intro acc; simp
  | cons l rest ih =>
    intro acc
    by_cases hl : notable l <;> simp [hl, ih, List.append_assoc]

/-- Closed form of `eventsSection`. -/
lemma eventsSection_eq (logs : List LogEntry) :
    eventsSection logs = ((logs.filter notable).map notableLine).flatten := by
  have := eventsSection_aux logs []
  simpa [eventsSection] using this

/-- The CSV row loop never fails and appends one record per entry. -/
lemma writeRows_eq :
    ∀ (logs : List LogEntry) (buf : Str),
      writeRows buf logs =
        Except.ok (buf ++ (logs.map (fun l => writeRecord (rowFields l))).flatten) := by
  intro logs
  induction logs with
  | nil => intro buf; simp [writeRows]
  | cons l rest ih =>
    intro buf
    simp [writeRows, bufferWriteRecord, ih, List.append_assoc]

/-- Closed form of `ConvertToCSV`: always `ok`, header row first, then one
record per entry in input order. -/
lemma convertToCSV_eq (logs : List LogEntry) :
    convertToCSV logs =
      Except.ok (writeRecord headerFields ++
        (logs.map (fun l => writeRecord (rowFields l))).flatten) := by
  simp [convertToCSV, bufferWriteRecord, csvFlushError, writeRows_eq]

/-- Bridge between `List.count` at any lawful `BEq` instance and the
instance-free `countP` of decidable equality. -/
lemma count_eq_countDecide {α : Type} [inst : BEq α] [linst : LawfulBEq α]
    [DecidableEq α] (p : α) (L : List α) :
    List.count p L = L.countP (fun x => decide (x = p)) := by
  induction L with
  | nil => rfl
  | cons b L ih =>
    by_cases hbp : b = p <;> simp [List.count_cons, List.countP_cons, hbp, ih]

/-- The sum over the distinct members of a list of their multiplicities is
the length of the list, in `Int`. -/
lemma sum_count_dedup_int (L : List Str) :
    (L.dedup.map (fun p => (List.count p L : Int))).sum = (L.length : Int) := by
  have h := List.sum_map_count_dedup_eq_length L
  simp only [count_eq_countDecide] at h ⊢
  have h2 : (L.dedup.map fun p => ((L.countP fun x => decide (x = p) : Nat) : Int)).sum =
      ((L.dedup.map fun p => (L.countP fun x => decide (x = p))).map
        (fun n : Nat => (n : Int))).sum := by
    rw [List.map_map]; rfl
  rw [h2, ← Nat.cast_list_sum, h]

/-! ## The claims -/

/-- C1: for every non-empty input sequence of `LogEntry`, the sum over all
distinct paths of the per-path `count` field computed by the aggregation
loops of `AnalyzeLogs` and of `AnalyzePerformance` equals the length of the
input sequence. -/
theorem claim_C1_count_sum (logs : List LogEntry) (hne : logs ≠ []) :
    ((logs.map (fun l => l.path)).dedup.map
        (fun p => (logPathStats logs p).count)).sum = (logs.length : Int) ∧
    ((logs.map (fun l => l.path)).dedup.map
        (fun p => (perfPathStats logs p).count)).sum = (logs.length : Int) := by
  have key : ∀ f : Str → Int,
      (∀ p, f p = (List.count p (logs.map (fun l => l.path)) : Int)) →
      ((logs.map (fun l => l.path)).dedup.map f).sum = (logs.length : Int) := by
    intro f hf
    have h1 : (logs.map (fun l => l.path)).dedup.map f =
        (logs.map (fun l => l.path)).dedup.map
          (fun p => (List.count p (logs.map (fun l => l.path)) : Int)) :=
      List.map_congr_left (fun p _ => hf p)
    rw [h1, sum_count_dedup_int]
    simp
  exact ⟨key _ (logPathStats_count logs), key _ (perfPathStats_count logs)⟩

/-- Witness for C1 at a concrete one-entry batch. -/
theorem claim_C1_count_sum_witness :
    ([wlog1] : List LogEntry) ≠ [] ∧
    ((([wlog1] : List LogEntry).map (fun l => l.path)).dedup.map
        (fun p => (logPathStats [wlog1] p).count)).sum =
      (([wlog1] : List LogEntry).length : Int) ∧
    ((([wlog1] : List LogEntry).map (fun l => l.path)).dedup.map
        (fun p => (perfPathStats [wlog1] p).count)).sum =
      (([wlog1] : List LogEntry).length : Int) :=
  ⟨by decide, claim_C1_count_sum [wlog1] (by decide)⟩

/-- C2 (counterexample): the claimed invariant fails for arbitrary
caller-supplied durations.  Two entries of duration `2^62` (a legal `int64`
value) for one path wrap Go's `int64` running total to `-2^63`, so the
average `-2^62` drops strictly below the computed `minTime = 2^62`. -/
theorem claim_C2_counterexample :
    ¬((perfPathStats [wbig, wbig] "/a".data).minTime ≤
      (perfPathStats [wbig, wbig] "/a".data).totalTime.tdiv
        (perfPathStats [wbig, wbig] "/a".data).count) := by
  decide

/-- C2 (amended): for every path present in the `AnalyzePerformance`
statistics (`count ≠ 0`), `0 ≤ errors ≤ count` holds unconditionally, and
`minTime ≤ totalTime.tdiv count ≤ maxTime` (with `Int.tdiv` Go's truncating
division) holds for arbitrary, including negative, durations whose absolute
values sum below `2^63`, so that the `int64` running total cannot wrap —
the counterexample shows the chain fails beyond that bound. -/
theorem claim_C2_perf_invariants (logs : List LogEntry) (p : Str)
    (h : (perfPathStats logs p).count ≠ 0) :
    (0 ≤ (perfPathStats logs p).errors ∧
      (perfPathStats logs p).errors ≤ (perfPathStats logs p).count) ∧
    (durAbsSum logs p ≤ 9223372036854775807 →
      (perfPathStats logs p).minTime ≤
        (perfPathStats logs p).totalTime.tdiv (perfPathStats logs p).count ∧
      (perfPathStats logs p).totalTime.tdiv (perfPathStats logs p).count ≤
        (perfPathStats logs p).maxTime) := by
  obtain ⟨he0, hec, _, _⟩ := (perfPathStats_inv logs p).2 h
  have hnn : 0 ≤ (perfPathStats logs p).count := by
    rw [perfPathStats_count]; exact Int.natCast_nonneg _
  have hpos : 0 < (perfPathStats logs p).count := by omega
  refine ⟨⟨he0, hec⟩, ?_⟩
  intro hof
  obtain ⟨_, hbounds⟩ := perfPathStats_total logs p hof
  obtain ⟨hb1, hb2⟩ := hbounds h
  exact ⟨le_tdiv_of_mul_le hpos hb1, tdiv_le_of_le_mul hpos hb2⟩

/-- Witness for C2 at a concrete batch containing a negative duration, on
which the no-overflow bound holds. -/
theorem claim_C2_perf_invariants_witness :
    (perfPathStats [wlog1, wlog2] "/a".data).count ≠ 0 ∧
    durAbsSum [wlog1, wlog2] "/a".data ≤ 9223372036854775807 ∧
    ((0 ≤ (perfPathStats [wlog1, wlog2] "/a".data).errors ∧
      (perfPathStats [wlog1, wlog2] "/a".data).errors ≤
        (perfPathStats [wlog1, wlog2] "/a".data).count) ∧
     ((perfPathStats [wlog1, wlog2] "/a".data).minTime ≤
        (perfPathStats [wlog1, wlog2] "/a".data).totalTime.tdiv
          (perfPathStats [wlog1, wlog2] "/a".data).count ∧
      (perfPathStats [wlog1, wlog2] "/a".data).totalTime.tdiv
          (perfPathStats [wlog1, wlog2] "/a".data).count ≤
        (perfPathStats [wlog1, wlog2] "/a".data).maxTime)) :=
  ⟨by decide, by decide,
    ⟨(claim_C2_perf_invariants [wlog1, wlog2] "/a".data (by decide)).1,
     (claim_C2_perf_invariants [wlog1, wlog2] "/a".data (by decide)).2 (by decide)⟩⟩

/-- C3: every individual duration of an entry for a path lies between the
`minTime` and `maxTime` computed for that path by `AnalyzePerformance`. -/
theorem claim_C3_individual_bounds (logs : List LogEntry) (p : Str)
    (l : LogEntry) (hl : l ∈ logs) (hp : l.path = p) :
    (perfPathStats logs p).minTime ≤ l.duration ∧
      l.duration ≤ (perfPathStats logs p).maxTime := by
  have hcnt : (perfPathStats logs p).count ≠ 0 := by
    rw [perfPathStats_count, Ne, Int.natCast_eq_zero]
    have hmem : p ∈ logs.map (fun x => x.path) := List.mem_map.mpr ⟨l, hl, hp⟩
    have := List.count_pos_iff.mpr hmem
    omega
  obtain ⟨_, _, _, hall⟩ := (perfPathStats_inv logs p).2 hcnt
  exact hall l hl hp

/-- Witness for C3 at a concrete batch and entry. -/
theorem claim_C3_individual_bounds_witness :
    wlog2 ∈ ([wlog1, wlog2] : List LogEntry) ∧ wlog2.path = "/a".data ∧
    ((perfPathStats [wlog1, wlog2] "/a".data).minTime ≤ wlog2.duration ∧
      wlog2.duration ≤ (perfPathStats [wlog1, wlog2] "/a".data).maxTime) :=
  ⟨by decide, by decide,
    claim_C3_individual_bounds [wlog1, wlog2] "/a".data wlog2 (by decide) (by decide)⟩

/-- C4: `cleanJSONResponse` first removes every backtick (making the
fence-marker removals vacuous), then returns the inclusive slice from the
first opening brace to the last closing brace when the latter comes after
the former, and the cleaned text unchanged otherwise; on the two concrete
inputs of the spec it yields the JSON object and the unchanged text. -/
theorem claim_C4_clean_characterization :
    (∀ s : Str, cleanJSONResponse s = sliceToBraces (stripFences s)) ∧
    cleanJSONResponse "\x60\x60\x60json\n\x7b\"a\":1\x7d\n\x60\x60\x60".data =
      "\x7b\"a\":1\x7d".data ∧
    cleanJSONResponse "no json here".data = "no json here".data :=
  ⟨clean_eq, by decide, by decide⟩

/-- C5: an entry contributes a line to the notable-events section iff
`status ≥ 400` or `level = "error"` or `level = "warning"` or
`duration > 1000`, and each line renders timestamp, level, path, duration
and status in that order. -/
theorem claim_C5_notable_events (logs : List LogEntry) :
    eventsSection logs = ((logs.filter notable).map notableLine).flatten ∧
    (∀ l : LogEntry, notable l = true ↔
      (400 ≤ l.status ∨ l.level = "error".data ∨ l.level = "warning".data ∨
        1000 < l.duration)) ∧
    (∀ l : LogEntry, notableLine l =
      "- ".data ++ l.timestamp ++ " [".data ++ l.level ++ "] ".data ++ l.path ++
        " (Duration: ".data ++ intToStr l.duration ++ "ms, Status: ".data ++
        intToStr l.status ++ ")\n".data) := by
  refine ⟨eventsSection_eq logs, ?_, fun l => rfl⟩
  intro l
  simp [notable, or_assoc]

/-- C6: `ConvertToCSV` produces exactly the fixed header row followed by one
row per entry in input order (no rows for an empty input), with `Duration`
and `Status` in decimal, `metadata` omitted, and Go `encoding/csv` quoting
for embedded commas, quotes and newlines. -/
theorem claim_C6_csv_shape (logs : List LogEntry) :
    convertToCSV logs =
      Except.ok (writeRecord headerFields ++
        (logs.map (fun l => writeRecord (rowFields l))).flatten) ∧
    convertToCSV ([] : List LogEntry) = Except.ok (writeRecord headerFields) ∧
    writeField "m,with,commas".data = "\"m,with,commas\"".data := by
  refine ⟨convertToCSV_eq logs, ?_, by decide⟩
  rw [convertToCSV_eq]
  simp

/-- C7: any response status other than 200 (in particular every non-2xx
status) makes `callGeminiAPI` fail with the API error carrying that status
code and the raw body verbatim, and the text extraction is reached only for
a status in the 2xx range. -/
theorem claim_C7_status_gate (statusCode : Nat) (body : Str)
    (parsed : Option (List (Str × JValue))) :
    (¬(200 ≤ statusCode ∧ statusCode ≤ 299) →
      handleGeminiResponse statusCode body parsed =
        Except.error (GeminiError.apiError statusCode body)) ∧
    (handleGeminiResponse statusCode body parsed ≠
        Except.error (GeminiError.apiError statusCode body) →
      (200 ≤ statusCode ∧ statusCode ≤ 299) ∧
      handleGeminiResponse statusCode body parsed = extractGeminiText body parsed) := by
  by_cases h200 : statusCode = 200
  · subst h200
    refine ⟨fun hno => absurd ⟨by omega, by omega⟩ hno, fun _ => ⟨⟨by omega, by omega⟩, ?_⟩⟩
    simp [handleGeminiResponse]
  · have hape : handleGeminiResponse statusCode body parsed =
        Except.error (GeminiError.apiError statusCode body) := by
      simp [handleGeminiResponse, h200]
    exact ⟨fun _ => hape, fun hne => absurd hape hne⟩

/-- Witness for C7: a 429 response fails with the status and body, and a
200 response reaches the extraction. -/
theorem claim_C7_status_gate_witness :
    handleGeminiResponse 429 "rate limited".data none =
      Except.error (GeminiError.apiError 429 "rate limited".data) ∧
    ((200 ≤ 200 ∧ 200 ≤ 299) ∧
      handleGeminiResponse 200 "oops".data none = extractGeminiText "oops".data none) :=
  ⟨(claim_C7_status_gate 429 "rate limited".data none).1 (by decide),
   (claim_C7_status_gate 200 "oops".data none).2 (by
      intro hcontr
      simp [handleGeminiResponse, extractGeminiText] at hcontr)⟩

/-- C8: the error rate for `count = 4, errors = 1` renders as the string
`25.0`, and the very same one-decimal formatter is what both the
log-analysis statistics line and the performance-analysis block render. -/
theorem claim_C8_error_rate_format :
    errorRateStr 1 4 = "25.0".data ∧
    (∀ (path : Str) (stats : LogPathStats), logStatLine path stats =
      "- ".data ++ path ++ ": ".data ++ intToStr stats.count ++
        " requests, avg time ".data ++
        intToStr (stats.totalTime.tdiv stats.count) ++ "ms, error rate ".data ++
        errorRateStr stats.errors stats.count ++ "%\n".data) ∧
    (∀ (path : Str) (stats : PerfPathStats), perfStatBlock path stats =
      "Endpoint: ".data ++ path ++ "\n".data ++
        "- Requests: ".data ++ intToStr stats.count ++ "\n".data ++
        "- Avg Time: ".data ++ intToStr (stats.totalTime.tdiv stats.count) ++ "ms\n".data ++
        "- Min Time: ".data ++ intToStr stats.minTime ++ "ms\n".data ++
        "- Max Time: ".data ++ intToStr stats.maxTime ++ "ms\n".data ++
        "- Error Rate: ".data ++ errorRateStr stats.errors stats.count ++ "%\n\n".data) :=
  ⟨by decide, fun _ _ => rfl, fun _ _ => rfl⟩

/-- C9: `cleanJSONResponse` is idempotent. -/
theorem claim_C9_clean_idempotent (s : Str) :
    cleanJSONResponse (cleanJSONResponse s) = cleanJSONResponse s := by
  rw [clean_eq s, clean_eq (sliceToBraces (stripFences s))]
  have hb2 : backtickChar ∉ sliceToBraces (stripFences s) :=
    fun hm => backtick_not_mem_stripFences s (sliceToBraces_subset _ _ hm)
  have hsf : stripFences (sliceToBraces (stripFences s)) =
      sliceToBraces (stripFences s) := by
    refine List.filter_eq_self.mpr ?_
    intro a ha
    have hne : a ≠ backtickChar := fun he => hb2 (he ▸ ha)
    simp [hne]
  rw [hsf, sliceToBraces_idem]

/-- C10: `ConvertToCSV` never returns an error: every error branch guards a
`bytes.Buffer` write, which always succeeds. -/
theorem claim_C10_csv_total (logs : List LogEntry) :
    ∃ out : Str, convertToCSV logs = Except.ok out :=
  ⟨_, convertToCSV_eq logs⟩

end Analytics
